import Mathlib

/-!
Shallow embedding of the SST scheduling core: the `TimeVortex` and
`PollingLinkQueue` activity queues (src/sst/core/timeVortex.h and the
`PollingLinkQueue` implementation) and the `Sync` partition barrier
(`Sync::Sync`, `Sync::registerLink`, `Sync::execute`,
`Sync::exchangeLinkInitData`, `Sync::serialize`).
-/

namespace SSTCore

/-- An `Activity`: the scheduled unit, with a delivery time, a priority
(lower value dispatches first) and a monotonically assigned sequence
number.  Mirrors the attributes the queue comparators consult. -/
structure Activity where
  delivery_time : Nat
  priority : Nat
  seq : Nat
deriving DecidableEq, Repr

/-- Modelled from the spec: `Activity::less_time_priority`, the comparator of
`TimeVortex`'s multiset (its definition lives in activity.h, which is not
among the sources).  The spec: ordering is lexicographic
`(delivery_time, priority, sequence)`. -/
def less_time_priority (a b : Activity) : Prop :=
  a.delivery_time < b.delivery_time ∨
    (a.delivery_time = b.delivery_time ∧
      (a.priority < b.priority ∨ (a.priority = b.priority ∧ a.seq < b.seq)))

instance (a b : Activity) : Decidable (less_time_priority a b) := by
  unfold less_time_priority; infer_instance

/-- Modelled from the spec: `Activity::less_time`, the comparator of
`PollingLinkQueue`'s multiset (also defined in the absent activity.h).
The spec: ordered by delivery time only. -/
def less_time (a b : Activity) : Prop :=
  a.delivery_time < b.delivery_time

instance (a b : Activity) : Decidable (less_time a b) := by
  unfold less_time; infer_instance

/-- `std::multiset::insert`: the element is placed at the upper bound of its
equivalence class, i.e. before the first resident element strictly greater
by the comparator, after every element not strictly greater.  This is the
placement C++ guarantees, and it is what makes equal keys FIFO. -/
def msInsert (lt : Activity → Activity → Prop) [DecidableRel lt]
    (a : Activity) : List Activity → List Activity
  | [] => [a]
  | b :: l => if lt a b then a :: b :: l else b :: msInsert lt a l

/-- `TimeVortex` (src/sst/core/timeVortex.h): a multiset of activities
ordered by `less_time_priority`, represented as its sorted element list. -/
structure TimeVortex where
  data : List Activity
deriving DecidableEq, Repr

def tvEmpty (q : TimeVortex) : Bool :=
  q.data.isEmpty

def tvSize (q : TimeVortex) : Nat :=
  q.data.length

def tvInsert (q : TimeVortex) (a : Activity) : TimeVortex :=
  ⟨msInsert less_time_priority a q.data⟩

/-- Modelled from the spec: `TimeVortex::pop` (implementation not among the
sources; the header shows only the multiset member).  The spec: `pop`
removes and returns the minimum, nothing when empty. -/
def tvPop (q : TimeVortex) : Option (Activity × TimeVortex) :=
  match q.data with
  | [] => none
  | a :: l => some (a, ⟨l⟩)

/-- Modelled from the spec: `TimeVortex::front` returns the minimum without
removing it, nothing when empty. -/
def tvFront (q : TimeVortex) : Option Activity :=
  match q.data with
  | [] => none
  | a :: _ => some a

/-- `PollingLinkQueue`: a multiset of activities ordered by `less_time`,
represented as its sorted element list. -/
structure PollingLinkQueue where
  data : List Activity
deriving DecidableEq, Repr

def plqEmpty (q : PollingLinkQueue) : Bool :=
  q.data.isEmpty

def plqSize (q : PollingLinkQueue) : Nat :=
  q.data.length

def plqInsert (q : PollingLinkQueue) (a : Activity) : PollingLinkQueue :=
  ⟨msInsert less_time a q.data⟩

/-- `PollingLinkQueue::pop`: NULL when the queue is empty, otherwise erase
and return `*data.begin()`. -/
def plqPop (q : PollingLinkQueue) : Option (Activity × PollingLinkQueue) :=
  match q.data with
  | [] => none
  | a :: l => some (a, ⟨l⟩)

/-- `PollingLinkQueue::front`: NULL when the queue is empty, otherwise
`*data.begin()` without erasing. -/
def plqFront (q : PollingLinkQueue) : Option Activity :=
  match q.data with
  | [] => none
  | a :: _ => some a

/-- Repeatedly `pop` a `TimeVortex`, fuelled by the queue size. -/
def tvDrainFuel : Nat → TimeVortex → List Activity
  | 0, _ => []
  | n + 1, q =>
    match tvPop q with
    | none => []
    | some (a, q2) => a :: tvDrainFuel n q2

def tvDrain (q : TimeVortex) : List Activity :=
  tvDrainFuel (tvSize q) q

/-- Repeatedly `pop` a `PollingLinkQueue`, fuelled by the queue size. -/
def plqDrainFuel : Nat → PollingLinkQueue → List Activity
  | 0, _ => []
  | n + 1, q =>
    match plqPop q with
    | none => []
    | some (a, q2) => a :: plqDrainFuel n q2

def plqDrain (q : PollingLinkQueue) : List Activity :=
  plqDrainFuel (plqSize q) q

/-- Stamp a list of `(delivery_time, priority)` jobs with consecutive
sequence numbers starting at `n`: the process-wide monotonically increasing
id assigned at Activity construction. -/
def stampFrom (n : Nat) : List (Nat × Nat) → List Activity
  | [] => []
  | (t, p) :: l => ⟨t, p, n⟩ :: stampFrom (n + 1) l

def stampActs (jobs : List (Nat × Nat)) : List Activity :=
  stampFrom 0 jobs

def tvInsertAll (acts : List Activity) : TimeVortex :=
  acts.foldl tvInsert ⟨[]⟩

def plqInsertAll (acts : List Activity) : PollingLinkQueue :=
  acts.foldl plqInsert ⟨[]⟩

/-- The dispatch order of a `TimeVortex` into which the stamped `jobs` were
enqueued in order: what repeated `pop` returns. -/
def tvRun (jobs : List (Nat × Nat)) : List Activity :=
  tvDrain (tvInsertAll (stampActs jobs))

/-- The dispatch order of a `PollingLinkQueue` into which the stamped `jobs`
were enqueued in order: what repeated `pop` returns. -/
def plqRun (jobs : List (Nat × Nat)) : List Activity :=
  plqDrain (plqInsertAll (stampActs jobs))

/-! ## The Sync partition barrier -/

/-- Width of `SimTime_t` (`uint64_t`); unsigned arithmetic wraps modulo this. -/
def U64 : Nat := 2 ^ 64

/-- Unsigned 64-bit subtraction `a - b` as C++ computes it (values `< U64`
wrap around zero). -/
def wsub (a b : Nat) : Nat :=
  (a + U64 - b) % U64

/-- An `Event` as the barrier sees it: a destination link id (an `Int`,
because `exchangeLinkInitData` resets it to `-1`), a delivery time and an
opaque payload. -/
structure Event where
  link_id : Int
  delivery_time : Nat
  payload : Nat
deriving DecidableEq, Repr

/-- The value of `comm_map` at one rank:
`std::pair<SyncQueue*, std::vector<Activity*>*>`.  The `SyncQueue` pointer
is modelled by an allocation id `qid` plus its buffered contents `sendq`;
the receive vector by `recvbuf`. -/
structure RankData where
  qid : Nat
  sendq : List Event
  recvbuf : List Event
deriving DecidableEq, Repr

/-- The `Sync` action's state: the period (the `TimeConverter`'s factor),
the `Action` priority, `comm_map`, `link_map` (link id to the link, the
link itself modelled by an opaque handle), the allocation counter for
`SyncQueue` identities, and the transport handle `comm` (opaque). -/
structure Sync where
  period : Nat
  priority : Nat
  comm_map : List (Int × RankData)
  link_map : List (Int × Nat)
  next_qid : Nat
  comm : Nat
deriving DecidableEq, Repr

/-- `std::map` lookup (`find` / `count`). -/
def alookup (k : Int) : List (Int × α) → Option α
  | [] => none
  | (k2, v) :: l => if k = k2 then some v else alookup k l

/-- `std::map` insert-or-assign (`operator[] = v`). -/
def aset (k : Int) (v : α) : List (Int × α) → List (Int × α)
  | [] => [(k, v)]
  | (k2, w) :: l => if k = k2 then (k, v) :: l else (k2, w) :: aset k v l

/-- `Sync::registerLink`: the first call naming a rank allocates a fresh
`SyncQueue` and a fresh receive vector for it, a repeat call returns the
queue already in `comm_map`; every call records `link_map[link_id] = link`.
Returns the `SyncQueue` (by its allocation id) and the updated state. -/
def registerLink (s : Sync) (rank : Int) (link_id : Int) (link : Nat) :
    Nat × Sync :=
  match alookup rank s.comm_map with
  | none =>
    (s.next_qid,
      { s with
        comm_map := aset rank ⟨s.next_qid, [], []⟩ s.comm_map
        next_qid := s.next_qid + 1
        link_map := aset link_id link s.link_map })
  | some d =>
    (d.qid, { s with link_map := aset link_id link s.link_map })

/-- A posted non-blocking transport request: `comm.isend(rank, 0, vector)`
or `comm.irecv(rank, 0, buffer)`. -/
inductive Post where
  | send : Int → List Event → Post
  | recv : Int → Post
deriving DecidableEq, Repr

/-- One `link->Send(delay, ev)` call observed during dispatch. -/
structure SendCall where
  link : Nat
  delay : Nat
  ev : Event
deriving DecidableEq, Repr

/-- The first loop of `Sync::execute`: for each rank in `comm_map`, post an
`isend` of the rank's `SyncQueue` contents and an `irecv` into its receive
buffer. -/
def postRequests (m : List (Int × RankData)) : List Post :=
  m.foldr (fun rd acc => Post.send rd.1 rd.2.sendq :: Post.recv rd.1 :: acc) []

/-- `wait_all` completing the posted receives: each rank's receive buffer
now holds what the network delivered from that rank (`net`). -/
def waitAll (net : Int → List Event) (m : List (Int × RankData)) :
    List (Int × RankData) :=
  m.map fun rd => (rd.1, { rd.2 with recvbuf := net rd.1 })

/-- Dispatch of one received activity in `Sync::execute`: look the link id
up in `link_map`; missing means `printf` + `abort()`; otherwise
`delay = ev->getDeliveryTime() - current_cycle` (unsigned 64-bit
subtraction) and `link->Send(delay, ev)`. -/
def dispatchEvent (lm : List (Int × Nat)) (cur : Nat) (ev : Event) :
    Except String SendCall :=
  match alookup ev.link_id lm with
  | none => .error "Link not found in map!"
  | some lk => .ok ⟨lk, wsub ev.delivery_time cur, ev⟩

/-- Dispatch every received activity of one buffer in order. -/
def dispatchList (lm : List (Int × Nat)) (cur : Nat) :
    List Event → Except String (List SendCall)
  | [] => .ok []
  | ev :: rest =>
    match dispatchEvent lm cur ev with
    | .error e => .error e
    | .ok c =>
      match dispatchList lm cur rest with
      | .error e => .error e
      | .ok cs => .ok (c :: cs)

/-- The second loop of `Sync::execute`, as the code interleaves it per
rank: clear the rank's `SyncQueue`, dispatch each activity of its receive
buffer, clear the receive buffer, move to the next rank. -/
def execLoop (lm : List (Int × Nat)) (cur : Nat) :
    List (Int × RankData) →
      Except String (List (Int × RankData) × List SendCall)
  | [] => .ok ([], [])
  | (r, d) :: rest =>
    match dispatchList lm cur d.recvbuf with
    | .error e => .error e
    | .ok calls =>
      match execLoop lm cur rest with
      | .error e => .error e
      | .ok (m2, more) =>
        .ok ((r, { d with sendq := [], recvbuf := [] }) :: m2, calls ++ more)

/-- `Sync::execute`, transcribed: post the sends and receives, wait for
all of them, then per rank clear the send queue and dispatch the received
activities, and finally reschedule at `current_cycle + period`.  Returns
the new state, the posted requests, the `Send` calls made on links in
order, and the reinsertion time handed to `insertActivity`. -/
def Sync.execute (s : Sync) (net : Int → List Event) (cur : Nat) :
    Except String (Sync × List Post × List SendCall × Nat) :=
  match execLoop s.link_map cur (waitAll net s.comm_map) with
  | .error e => .error e
  | .ok (m2, calls) =>
    .ok ({ s with comm_map := m2 }, postRequests s.comm_map, calls,
      cur + s.period)

/-- Step 3 of the spec's ordering of `Sync::execute`: clear every local
send-side `SyncQueue`. -/
def clearAllSend (m : List (Int × RankData)) : List (Int × RankData) :=
  m.map fun rd => (rd.1, { rd.2 with sendq := [] })

/-- Step 4 of the spec's ordering: dispatch every received activity, rank
by rank, emptying the receive buffers. -/
def dispatchAll (lm : List (Int × Nat)) (cur : Nat) :
    List (Int × RankData) →
      Except String (List (Int × RankData) × List SendCall)
  | [] => .ok ([], [])
  | (r, d) :: rest =>
    match dispatchList lm cur d.recvbuf with
    | .error e => .error e
    | .ok calls =>
      match dispatchAll lm cur rest with
      | .error e => .error e
      | .ok (m2, more) => .ok ((r, { d with recvbuf := [] }) :: m2, calls ++ more)

/-- `Sync::execute` in the exact step order the spec states: (1) post the
non-blocking sends and receives, (2) wait for all of them, (3) clear every
local send-side `SyncQueue`, (4) dispatch every received activity, (5)
re-insert self at `current_cycle + period`.  Stated from the spec's words,
to be compared with `Sync.execute`. -/
def executeSpecOrder (s : Sync) (net : Int → List Event) (cur : Nat) :
    Except String (Sync × List Post × List SendCall × Nat) :=
  match dispatchAll s.link_map cur (clearAllSend (waitAll net s.comm_map)) with
  | .error e => .error e
  | .ok (m3, calls) =>
    .ok ({ s with comm_map := m3 }, postRequests s.comm_map, calls,
      cur + s.period)

/-- Processing of one received `LinkInitData` in
`Sync::exchangeLinkInitData`: look its link id up in `link_map`; missing
means `printf` + `abort()`; otherwise reset the link id to `-1` (the
receiving link will set it again) and hand the item to
`link->sendInitData`. -/
def dispatchInit (lm : List (Int × Nat)) (ev : Event) :
    Except String (Nat × Event) :=
  match alookup ev.link_id lm with
  | none => .error "Link not found in map!"
  | some lk => .ok (lk, { ev with link_id := -1 })

def dispatchInitList (lm : List (Int × Nat)) :
    List Event → Except String (List (Nat × Event))
  | [] => .ok []
  | ev :: rest =>
    match dispatchInit lm ev with
    | .error e => .error e
    | .ok c =>
      match dispatchInitList lm rest with
      | .error e => .error e
      | .ok cs => .ok (c :: cs)

/-- The receive-side loop of `Sync::exchangeLinkInitData`: per rank, clear
the send queue, process each received item, clear the receive buffer. -/
def exchangeLoop (lm : List (Int × Nat)) :
    List (Int × RankData) →
      Except String (List (Int × RankData) × List (Nat × Event))
  | [] => .ok ([], [])
  | (r, d) :: rest =>
    match dispatchInitList lm d.recvbuf with
    | .error e => .error e
    | .ok out =>
      match exchangeLoop lm rest with
      | .error e => .error e
      | .ok (m2, more) =>
        .ok ((r, { d with sendq := [], recvbuf := [] }) :: m2, out ++ more)

/-- `Sync::exchangeLinkInitData`, transcribed from its exchange onwards.
The opening loop (`link->moveInitDataToRecvQueue()`, draining each link's
pending init data into the `SyncQueue`s — `Link`'s code is not among the
sources) is modelled from the spec by taking as input a state `s` whose
send queues already hold the drained items.  Returns the new state, the
posted requests, and the `(link, item)` pairs handed to `sendInitData`. -/
def Sync.exchangeLinkInitData (s : Sync) (net : Int → List Event) :
    Except String (Sync × List Post × List (Nat × Event)) :=
  match exchangeLoop s.link_map (waitAll net s.comm_map) with
  | .error e => .error e
  | .ok (m2, out) =>
    .ok ({ s with comm_map := m2 }, postRequests s.comm_map, out)

/-- One field written by `Sync::serialize` into the archive. -/
inductive SerField where
  | base : Nat → SerField
  | periodField : Nat → SerField
  | commMapField : List (Int × RankData) → SerField
  | linkMapField : List (Int × Nat) → SerField
deriving DecidableEq, Repr

/-- `Sync::serialize`: the `Action` base object (carrying the priority),
then `period`, then `comm_map`, then `link_map`.  `comm` is deliberately
not written ("don't serialize comm - let it be silently rebuilt at
restart"). -/
def Sync.serialize (s : Sync) : List SerField :=
  [SerField.base s.priority, SerField.periodField s.period,
    SerField.commMapField s.comm_map, SerField.linkMapField s.link_map]

/-- `Sync::Sync(TimeConverter* period)`: record the period, read the
current cycle, set the priority to 25, and `insertActivity` self at
`current + period->getFactor()` — a `SimTime_t` (uint64) sum, so it wraps
modulo `2^64`.  Returns the constructed state and the delivery time handed
to `insertActivity`. -/
def mkSync (p : Nat) (cur : Nat) : Sync × Nat :=
  ({ period := p, priority := 25, comm_map := [], link_map := [],
     next_qid := 0, comm := 0 }, (cur + p) % U64)

/-- The order a delivery-time-only queue actually realises on stamped
input: earlier delivery time first, insertion order (sequence) on equal
delivery times. -/
def timeSeqLt (x y : Activity) : Prop :=
  x.delivery_time < y.delivery_time ∨
    (x.delivery_time = y.delivery_time ∧ x.seq < y.seq)

/-! Concrete states used to instantiate the theorems. -/

/-- A received event whose delivery time (5) lies in the past of the
barrier cycle (10); its link id 3 is registered. -/
def evPast : Event := ⟨3, 5, 0⟩

/-- A one-peer `Sync` state: rank 1 registered with `SyncQueue` id 0,
link 3 bound to link handle 42. -/
def sOne : Sync :=
  { period := 7, priority := 25, comm_map := [(1, ⟨0, [], []⟩)],
    link_map := [(3, 42)], next_qid := 1, comm := 0 }

def netPast : Int → List Event := fun _ => [evPast]

/-- A received event with delivery time 13 ≥ the barrier cycle 10. -/
def evFut : Event := ⟨3, 13, 0⟩

def netFut : Int → List Event := fun _ => [evFut]

/-- The result of `Sync.execute sOne netFut 10`. -/
def resFut : Sync × List Post × List SendCall × Nat :=
  (sOne, [Post.send 1 [], Post.recv 1], [⟨42, 3, evFut⟩], 17)

/-- A received event naming link id 9, absent from `sOne`'s link map. -/
def evNoLink : Event := ⟨9, 20, 0⟩

def netNoLink : Int → List Event := fun _ => [evNoLink]

/-- A received init-phase item for link 3 carrying payload 77. -/
def evInit : Event := ⟨3, 0, 77⟩

def netInit : Int → List Event := fun _ => [evInit]

end SSTCore

namespace SSTCore

/-! ## Helper lemmas -/

theorem msInsert_perm (lt : Activity → Activity → Prop) [DecidableRel lt]
    (a : Activity) (l : List Activity) :
    (msInsert lt a l).Perm (a :: l) := by
  induction l with
  | nil => simp [msInsert]
  | cons b l ih =>
    by_cases h : lt a b
    · simp [msInsert, h]
    · simp only [msInsert, if_neg h]
      exact (ih.cons b).trans (List.Perm.swap a b l)

theorem msInsert_pairwise (lt R : Activity → Activity → Prop)
    [DecidableRel lt]
    (hlt : ∀ x y, lt x y → R x y) (htr : Transitive R)
    (a : Activity) (l : List Activity) (hl : l.Pairwise R)
    (h : ∀ x ∈ l, ¬ lt a x → R x a) :
    (msInsert lt a l).Pairwise R := by
  induction l with
  | nil => simp [msInsert]
  | cons b l ih =>
    rw [List.pairwise_cons] at hl
    obtain ⟨hb, hl2⟩ := hl
    by_cases hab : lt a b
    · simp only [msInsert, if_pos hab]
      refine List.Pairwise.cons ?_ (List.Pairwise.cons hb hl2)
      intro y hy
      rcases List.mem_cons.mp hy with rfl | hy2
      · exact hlt a y hab
      · exact htr (hlt a b hab) (hb y hy2)
    · simp only [msInsert, if_neg hab]
      refine List.Pairwise.cons ?_ ?_
      · intro y hy
        rcases List.mem_cons.mp ((msInsert_perm lt a l).mem_iff.mp hy) with
          rfl | hy2
        · exact h b (List.mem_cons_self b l) hab
        · exact hb y hy2
      · exact ih hl2 fun x hx hax => h x (List.mem_cons_of_mem b hx) hax

theorem buildPairwise (lt R : Activity → Activity → Prop) [DecidableRel lt]
    (hlt : ∀ x y, lt x y → R x y) (htr : Transitive R) :
    ∀ l acc : List Activity, acc.Pairwise R →
      (∀ a ∈ l, ∀ x ∈ acc, ¬ lt a x → R x a) →
      l.Pairwise (fun x y => ¬ lt y x → R x y) →
      (List.foldl (fun q a => msInsert lt a q) acc l).Pairwise R := by
  intro l
  induction l with
  | nil =>
    intro acc hacc _ _
    simpa using hacc
  | cons a l ih =>
    intro acc hacc hcross hpair
    rw [List.pairwise_cons] at hpair
    obtain ⟨ha, hpair2⟩ := hpair
    simp only [List.foldl_cons]
    apply ih
    · exact msInsert_pairwise lt R hlt htr a acc hacc fun x hx hax =>
        hcross a (List.mem_cons_self a l) x hx hax
    · intro b hb x hx hbx
      rcases List.mem_cons.mp ((msInsert_perm lt a acc).mem_iff.mp hx) with
        rfl | hx2
      · exact ha b hb hbx
      · exact hcross b (List.mem_cons_of_mem a hb) x hx2 hbx
    · exact hpair2

theorem buildPerm (lt : Activity → Activity → Prop) [DecidableRel lt] :
    ∀ l acc : List Activity,
      (List.foldl (fun q a => msInsert lt a q) acc l).Perm (acc ++ l) := by
  intro l
  induction l with
  | nil => intro acc; simp
  | cons a l ih =>
    intro acc
    simp only [List.foldl_cons]
    refine (ih (msInsert lt a acc)).trans ?_
    refine ((msInsert_perm lt a acc).append_right l).trans ?_
    exact List.perm_middle.symm

theorem tvDrainFuel_eq : ∀ l : List Activity, tvDrainFuel l.length ⟨l⟩ = l := by
  intro l
  induction l with
  | nil => rfl
  | cons a l ih => simp [tvDrainFuel, tvPop, ih]

theorem tvDrain_data (q : TimeVortex) : tvDrain q = q.data := by
  cases q with
  | mk d => exact tvDrainFuel_eq d

theorem plqDrainFuel_eq :
    ∀ l : List Activity, plqDrainFuel l.length ⟨l⟩ = l := by
  intro l
  induction l with
  | nil => rfl
  | cons a l ih => simp [plqDrainFuel, plqPop, ih]

theorem plqDrain_data (q : PollingLinkQueue) : plqDrain q = q.data := by
  cases q with
  | mk d => exact plqDrainFuel_eq d

theorem tvInsertAll_data (acts : List Activity) :
    (tvInsertAll acts).data =
      List.foldl (fun q a => msInsert less_time_priority a q) [] acts := by
  show (List.foldl tvInsert ⟨[]⟩ acts).data = _
  generalize h : ([] : List Activity) = start
  have : (⟨start⟩ : TimeVortex).data = start := rfl
  clear h
  induction acts generalizing start with
  | nil => rfl
  | cons a l ih => simpa [tvInsert] using ih (msInsert less_time_priority a start)

theorem plqInsertAll_data (acts : List Activity) :
    (plqInsertAll acts).data =
      List.foldl (fun q a => msInsert less_time a q) [] acts := by
  show (List.foldl plqInsert ⟨[]⟩ acts).data = _
  generalize h : ([] : List Activity) = start
  clear h
  induction acts generalizing start with
  | nil => rfl
  | cons a l ih => simpa [plqInsert] using ih (msInsert less_time a start)

theorem stampFrom_seq_lb :
    ∀ (jobs : List (Nat × Nat)) (n : Nat), ∀ a ∈ stampFrom n jobs, n ≤ a.seq := by
  intro jobs
  induction jobs with
  | nil =>
    intro n a ha
    simp [stampFrom] at ha
  | cons j l ih =>
    intro n a ha
    obtain ⟨t, p⟩ := j
    rcases List.mem_cons.mp ha with rfl | h2
    · exact Nat.le_refl n
    · exact Nat.le_of_succ_le (ih (n + 1) a h2)

theorem stampFrom_seq_pairwise :
    ∀ (jobs : List (Nat × Nat)) (n : Nat),
      (stampFrom n jobs).Pairwise fun x y => x.seq < y.seq := by
  intro jobs
  induction jobs with
  | nil => intro n; exact List.Pairwise.nil
  | cons j l ih =>
    intro n
    obtain ⟨t, p⟩ := j
    refine List.Pairwise.cons ?_ (ih (n + 1))
    intro y hy
    exact Nat.lt_of_lt_of_le (Nat.lt_succ_self n) (stampFrom_seq_lb l (n + 1) y hy)

theorem ltp_trans : Transitive less_time_priority := by
  intro a b c hab hbc
  unfold less_time_priority at *
  omega

theorem ltp_asymm (x y : Activity) :
    less_time_priority x y → less_time_priority y x → False := by
  unfold less_time_priority
  omega

theorem ltp_total_of_seq_ne (x y : Activity) (h : x.seq ≠ y.seq)
    (h2 : ¬ less_time_priority y x) : less_time_priority x y := by
  unfold less_time_priority at *
  omega

theorem timeSeqLt_trans : Transitive timeSeqLt := by
  intro a b c hab hbc
  unfold timeSeqLt at *
  omega

theorem timeSeqLt_asymm (x y : Activity) :
    timeSeqLt x y → timeSeqLt y x → False := by
  unfold timeSeqLt
  omega

theorem tvRun_pairwise (jobs : List (Nat × Nat)) :
    (tvRun jobs).Pairwise less_time_priority := by
  have hd : tvRun jobs =
      List.foldl (fun q a => msInsert less_time_priority a q) []
        (stampActs jobs) := by
    unfold tvRun
    rw [tvDrain_data, tvInsertAll_data]
  rw [hd]
  apply buildPairwise less_time_priority less_time_priority
    (fun x y h => h) ltp_trans (stampActs jobs) [] List.Pairwise.nil
    (by intro a _ x hx; simp at hx)
  refine (stampFrom_seq_pairwise jobs 0).imp ?_
  intro x y hseq hnot
  exact ltp_total_of_seq_ne x y (Nat.ne_of_lt hseq) hnot

theorem plqRun_pairwise (jobs : List (Nat × Nat)) :
    (plqRun jobs).Pairwise timeSeqLt := by
  have hd : plqRun jobs =
      List.foldl (fun q a => msInsert less_time a q) [] (stampActs jobs) := by
    unfold plqRun
    rw [plqDrain_data, plqInsertAll_data]
  rw [hd]
  apply buildPairwise less_time timeSeqLt
    (fun x y h => Or.inl h) timeSeqLt_trans (stampActs jobs) []
    List.Pairwise.nil (by intro a _ x hx; simp at hx)
  refine (stampFrom_seq_pairwise jobs 0).imp ?_
  intro x y hseq hnot
  unfold less_time at hnot
  unfold timeSeqLt
  omega

theorem tvRun_perm (jobs : List (Nat × Nat)) :
    (tvRun jobs).Perm (stampActs jobs) := by
  have hd : tvRun jobs =
      List.foldl (fun q a => msInsert less_time_priority a q) []
        (stampActs jobs) := by
    unfold tvRun
    rw [tvDrain_data, tvInsertAll_data]
  rw [hd]
  simpa using buildPerm less_time_priority (stampActs jobs) []

theorem plqRun_perm (jobs : List (Nat × Nat)) :
    (plqRun jobs).Perm (stampActs jobs) := by
  have hd : plqRun jobs =
      List.foldl (fun q a => msInsert less_time a q) [] (stampActs jobs) := by
    unfold plqRun
    rw [plqDrain_data, plqInsertAll_data]
  rw [hd]
  simpa using buildPerm less_time (stampActs jobs) []

theorem dispatchEvent_none (lm : List (Int × Nat)) (cur : Nat) (ev : Event)
    (h : alookup ev.link_id lm = none) :
    dispatchEvent lm cur ev = .error "Link not found in map!" := by
  unfold dispatchEvent
  rw [h]

theorem dispatchEvent_ok (lm : List (Int × Nat)) (cur : Nat) (ev : Event)
    (lk : Nat) (h : alookup ev.link_id lm = some lk) :
    dispatchEvent lm cur ev = .ok ⟨lk, wsub ev.delivery_time cur, ev⟩ := by
  unfold dispatchEvent
  rw [h]

theorem dispatchEvent_error_msg (lm : List (Int × Nat)) (cur : Nat)
    (ev : Event) (e : String) (h : dispatchEvent lm cur ev = .error e) :
    e = "Link not found in map!" := by
  unfold dispatchEvent at h
  cases halk : alookup ev.link_id lm with
  | none =>
    rw [halk] at h
    injection h with h2
    exact h2.symm
  | some lk =>
    rw [halk] at h
    simp at h

theorem dispatchEvent_ok_delay (lm : List (Int × Nat)) (cur : Nat)
    (ev : Event) (c : SendCall) (h : dispatchEvent lm cur ev = .ok c) :
    c.delay = wsub c.ev.delivery_time cur := by
  unfold dispatchEvent at h
  cases halk : alookup ev.link_id lm with
  | none =>
    rw [halk] at h
    simp at h
  | some lk =>
    rw [halk] at h
    injection h with h2
    rw [← h2]

theorem dispatchList_error_msg (lm : List (Int × Nat)) (cur : Nat) :
    ∀ (l : List Event) (e : String), dispatchList lm cur l = .error e →
      e = "Link not found in map!" := by
  intro l
  induction l with
  | nil =>
    intro e h
    simp [dispatchList] at h
  | cons ev0 rest ih =>
    intro e h
    simp only [dispatchList] at h
    cases hde : dispatchEvent lm cur ev0 with
    | error e2 =>
      simp only [hde] at h
      injection h with h2
      exact h2 ▸ dispatchEvent_error_msg lm cur ev0 e2 hde
    | ok c =>
      simp only [hde] at h
      cases hdl : dispatchList lm cur rest with
      | error e2 =>
        simp only [hdl] at h
        injection h with h2
        exact h2 ▸ ih e2 hdl
      | ok cs =>
        simp only [hdl] at h
        simp at h

theorem dispatchList_err (lm : List (Int × Nat)) (cur : Nat) :
    ∀ l : List Event, (∃ ev ∈ l, alookup ev.link_id lm = none) →
      dispatchList lm cur l = .error "Link not found in map!" := by
  intro l
  induction l with
  | nil =>
    intro h
    obtain ⟨ev, hmem, _⟩ := h
    simp at hmem
  | cons ev0 rest ih =>
    intro h
    obtain ⟨ev, hmem, hnone⟩ := h
    rcases List.mem_cons.mp hmem with rfl | hmem2
    · simp [dispatchList, dispatchEvent_none lm cur ev hnone]
    · cases hde : dispatchEvent lm cur ev0 with
      | error e =>
        simp [dispatchList, hde, dispatchEvent_error_msg lm cur ev0 e hde]
      | ok c =>
        simp [dispatchList, hde, ih ⟨ev, hmem2, hnone⟩]

theorem dispatchList_ok_mem (lm : List (Int × Nat)) (cur : Nat) :
    ∀ (l : List Event) (calls : List SendCall),
      dispatchList lm cur l = .ok calls →
      ∀ ev ∈ l, ∀ lk : Nat, alookup ev.link_id lm = some lk →
        (⟨lk, wsub ev.delivery_time cur, ev⟩ : SendCall) ∈ calls := by
  intro l
  induction l with
  | nil =>
    intro calls _ ev hmem
    simp at hmem
  | cons ev0 rest ih =>
    intro calls h ev hmem lk hlk
    simp only [dispatchList] at h
    cases hde : dispatchEvent lm cur ev0 with
    | error e =>
      simp only [hde] at h
      simp at h
    | ok c =>
      simp only [hde] at h
      cases hdl : dispatchList lm cur rest with
      | error e =>
        simp only [hdl] at h
        simp at h
      | ok cs =>
        simp only [hdl] at h
        injection h with h2
        subst h2
        rcases List.mem_cons.mp hmem with rfl | hmem2
        · have hc : Except.ok (SendCall.mk lk (wsub ev.delivery_time cur) ev) =
              Except.ok c := (dispatchEvent_ok lm cur ev lk hlk).symm.trans hde
          injection hc with hc2
          rw [hc2]
          exact List.mem_cons_self c cs
        · exact List.mem_cons_of_mem c (ih cs hdl ev hmem2 lk hlk)

theorem dispatchList_delay (lm : List (Int × Nat)) (cur : Nat) :
    ∀ (l : List Event) (calls : List SendCall),
      dispatchList lm cur l = .ok calls →
      ∀ c ∈ calls, c.delay = wsub c.ev.delivery_time cur := by
  intro l
  induction l with
  | nil =>
    intro calls h c hc
    simp only [dispatchList] at h
    injection h with h2
    subst h2
    simp at hc
  | cons ev0 rest ih =>
    intro calls h c hc
    simp only [dispatchList] at h
    cases hde : dispatchEvent lm cur ev0 with
    | error e =>
      simp only [hde] at h
      simp at h
    | ok c0 =>
      simp only [hde] at h
      cases hdl : dispatchList lm cur rest with
      | error e =>
        simp only [hdl] at h
        simp at h
      | ok cs =>
        simp only [hdl] at h
        injection h with h2
        subst h2
        rcases List.mem_cons.mp hc with rfl | hc2
        · exact dispatchEvent_ok_delay lm cur ev0 c hde
        · exact ih cs hdl c hc2

theorem execLoop_error_msg (lm : List (Int × Nat)) (cur : Nat) :
    ∀ (m : List (Int × RankData)) (e : String), execLoop lm cur m = .error e →
      e = "Link not found in map!" := by
  intro m
  induction m with
  | nil =>
    intro e h
    simp [execLoop] at h
  | cons rd rest ih =>
    intro e h
    obtain ⟨r, d⟩ := rd
    simp only [execLoop] at h
    cases hdl : dispatchList lm cur d.recvbuf with
    | error e2 =>
      simp only [hdl] at h
      injection h with h2
      exact h2 ▸ dispatchList_error_msg lm cur d.recvbuf e2 hdl
    | ok calls =>
      simp only [hdl] at h
      cases hel : execLoop lm cur rest with
      | error e2 =>
        simp only [hel] at h
        injection h with h2
        exact h2 ▸ ih e2 hel
      | ok pr =>
        obtain ⟨m2, more⟩ := pr
        simp only [hel] at h
        simp at h

theorem execLoop_err (lm : List (Int × Nat)) (cur : Nat) :
    ∀ m : List (Int × RankData),
      (∃ p ∈ m, ∃ ev ∈ p.2.recvbuf, alookup ev.link_id lm = none) →
      execLoop lm cur m = .error "Link not found in map!" := by
  intro m
  induction m with
  | nil =>
    intro h
    obtain ⟨p, hp, _⟩ := h
    simp at hp
  | cons rd rest ih =>
    intro h
    obtain ⟨p, hp, ev, hev, hnone⟩ := h
    obtain ⟨r, d⟩ := rd
    rcases List.mem_cons.mp hp with rfl | hp2
    · simp [execLoop, dispatchList_err lm cur d.recvbuf ⟨ev, hev, hnone⟩]
    · cases hdl : dispatchList lm cur d.recvbuf with
      | error e =>
        simp [execLoop, hdl, dispatchList_error_msg lm cur d.recvbuf e hdl]
      | ok calls =>
        simp [execLoop, hdl, ih ⟨p, hp2, ev, hev, hnone⟩]

theorem execLoop_ok_mem (lm : List (Int × Nat)) (cur : Nat) :
    ∀ (m : List (Int × RankData)) (m2 : List (Int × RankData))
      (calls : List SendCall), execLoop lm cur m = .ok (m2, calls) →
      ∀ p ∈ m, ∀ ev ∈ p.2.recvbuf, ∀ lk : Nat,
        alookup ev.link_id lm = some lk →
        (⟨lk, wsub ev.delivery_time cur, ev⟩ : SendCall) ∈ calls := by
  intro m
  induction m with
  | nil =>
    intro m2 calls _ p hp
    simp at hp
  | cons rd rest ih =>
    intro m2 calls h p hp ev hev lk hlk
    obtain ⟨r, d⟩ := rd
    simp only [execLoop] at h
    cases hdl : dispatchList lm cur d.recvbuf with
    | error e =>
      simp only [hdl] at h
      simp at h
    | ok calls1 =>
      simp only [hdl] at h
      cases hel : execLoop lm cur rest with
      | error e =>
        simp only [hel] at h
        simp at h
      | ok pr =>
        obtain ⟨m3, more⟩ := pr
        simp only [hel] at h
        injection h with h2
        injection h2 with h3 h4
        subst h4
        rcases List.mem_cons.mp hp with rfl | hp2
        · exact List.mem_append_left more
            (dispatchList_ok_mem lm cur _ calls1 hdl ev hev lk hlk)
        · exact List.mem_append_right calls1
            (ih m3 more hel p hp2 ev hev lk hlk)

theorem execLoop_delay (lm : List (Int × Nat)) (cur : Nat) :
    ∀ (m : List (Int × RankData)) (m2 : List (Int × RankData))
      (calls : List SendCall), execLoop lm cur m = .ok (m2, calls) →
      ∀ c ∈ calls, c.delay = wsub c.ev.delivery_time cur := by
  intro m
  induction m with
  | nil =>
    intro m2 calls h c hc
    simp only [execLoop] at h
    injection h with h2
    injection h2 with h3 h4
    subst h4
    simp at hc
  | cons rd rest ih =>
    intro m2 calls h c hc
    obtain ⟨r, d⟩ := rd
    simp only [execLoop] at h
    cases hdl : dispatchList lm cur d.recvbuf with
    | error e =>
      simp only [hdl] at h
      simp at h
    | ok calls1 =>
      simp only [hdl] at h
      cases hel : execLoop lm cur rest with
      | error e =>
        simp only [hel] at h
        simp at h
      | ok pr =>
        obtain ⟨m3, more⟩ := pr
        simp only [hel] at h
        injection h with h2
        injection h2 with h3 h4
        subst h4
        rcases List.mem_append.mp hc with hc1 | hc2
        · exact dispatchList_delay lm cur d.recvbuf calls1 hdl c hc1
        · exact ih m3 more hel c hc2

theorem clearAllSend_cons (r : Int) (d : RankData)
    (rest : List (Int × RankData)) :
    clearAllSend ((r, d) :: rest) =
      (r, { d with sendq := [] }) :: clearAllSend rest := rfl

theorem execLoop_eq_spec (lm : List (Int × Nat)) (cur : Nat) :
    ∀ m : List (Int × RankData),
      execLoop lm cur m = dispatchAll lm cur (clearAllSend m) := by
  intro m
  induction m with
  | nil => rfl
  | cons rd rest ih =>
    obtain ⟨r, d⟩ := rd
    obtain ⟨q, sq, rb⟩ := d
    rw [clearAllSend_cons]
    simp only [execLoop, dispatchAll]
    cases hdl : dispatchList lm cur rb with
    | error e => rfl
    | ok calls =>
      rw [ih]

theorem wsub_of_le (a b : Nat) (hba : b ≤ a) (ha : a < U64) :
    wsub a b = a - b := by
  unfold wsub
  have h1 : a + U64 - b = (a - b) + U64 := by omega
  rw [h1, Nat.add_mod_right]
  exact Nat.mod_eq_of_lt (by omega)

theorem alookup_aset_self (k : Int) (v : α) :
    ∀ m : List (Int × α), alookup k (aset k v m) = some v := by
  intro m
  induction m with
  | nil => simp [aset, alookup]
  | cons p l ih =>
    obtain ⟨k2, w⟩ := p
    by_cases h : k = k2
    · simp [aset, h, alookup]
    · simp [aset, h, alookup, ih]

/-! ## Claim theorems -/

/-- Claim C1: for activities enqueued in a `TimeVortex` (stamped with
consecutive sequence numbers in insertion order), repeated `pop` returns
them as a permutation of the input in which any activity whose
`(delivery_time, priority, sequence)` triple is lexicographically smaller
comes out earlier; in particular, on equal delivery time and priority the
pop order is the insertion (sequence) order. -/
theorem timeVortex_pop_is_lex_order (jobs : List (Nat × Nat)) :
    (tvRun jobs).Perm (stampActs jobs) ∧
    (∀ i j : Nat, ∀ hi : i < (tvRun jobs).length,
      ∀ hj : j < (tvRun jobs).length,
      less_time_priority ((tvRun jobs).get ⟨i, hi⟩)
        ((tvRun jobs).get ⟨j, hj⟩) → i < j) ∧
    (∀ i j : Nat, ∀ hi : i < (tvRun jobs).length,
      ∀ hj : j < (tvRun jobs).length,
      ((tvRun jobs).get ⟨i, hi⟩).delivery_time =
        ((tvRun jobs).get ⟨j, hj⟩).delivery_time →
      ((tvRun jobs).get ⟨i, hi⟩).priority =
        ((tvRun jobs).get ⟨j, hj⟩).priority →
      ((tvRun jobs).get ⟨i, hi⟩).seq < ((tvRun jobs).get ⟨j, hj⟩).seq →
      i < j) := by
  have hget := List.pairwise_iff_get.mp (tvRun_pairwise jobs)
  have key : ∀ i j : Nat, ∀ hi : i < (tvRun jobs).length,
      ∀ hj : j < (tvRun jobs).length,
      less_time_priority ((tvRun jobs).get ⟨i, hi⟩)
        ((tvRun jobs).get ⟨j, hj⟩) → i < j := by
    intro i j hi hj hlt
    rcases Nat.lt_trichotomy i j with h | h | h
    · exact h
    · subst h
      exact absurd hlt (fun hx => ltp_asymm _ _ hx hx)
    · exact absurd (hget ⟨j, hj⟩ ⟨i, hi⟩ (Fin.mk_lt_mk.mpr h))
        (fun hx => ltp_asymm _ _ hlt hx)
  refine ⟨tvRun_perm jobs, key, ?_⟩
  intro i j hi hj h1 h2 h3
  exact key i j hi hj (Or.inr ⟨h1, Or.inr ⟨h2, h3⟩⟩)

/-- Witness for C1: the spec's priority-tiebreak scenario — at t=10,
priorities 5, 2, 2 inserted in that order dispatch as 2-first, 2-second,
5-last; the theorem applied at indices 0 and 2 with the lexicographic
hypothesis discharged concretely. -/
theorem timeVortex_pop_is_lex_order_witness :
    tvRun [(10, 5), (10, 2), (10, 2)] =
      [⟨10, 2, 1⟩, ⟨10, 2, 2⟩, ⟨10, 5, 0⟩] ∧ (0 : Nat) < 2 :=
  ⟨by decide,
   (timeVortex_pop_is_lex_order [(10, 5), (10, 2), (10, 2)]).2.1 0 2
     (by decide) (by decide) (by decide)⟩

/-- Claim C5: `pop` and `front` on a `PollingLinkQueue` and on a
`TimeVortex` are total and return nothing exactly when the queue is
empty. -/
theorem pop_front_none_iff_empty (q : PollingLinkQueue) (q2 : TimeVortex) :
    (plqPop q = none ↔ plqEmpty q = true) ∧
    (plqFront q = none ↔ plqEmpty q = true) ∧
    (tvPop q2 = none ↔ tvEmpty q2 = true) ∧
    (tvFront q2 = none ↔ tvEmpty q2 = true) := by
  obtain ⟨d⟩ := q
  obtain ⟨d2⟩ := q2
  cases d <;> cases d2 <;>
    simp [plqPop, plqFront, plqEmpty, tvPop, tvFront, tvEmpty]

/-- Claim C6: a `PollingLinkQueue` orders by delivery time only — repeated
`pop` returns a permutation of the stamped input that is non-decreasing in
delivery time, and among equal delivery times the pop order is exactly the
insertion (sequence) order, regardless of priority. -/
theorem pollingLinkQueue_pop_by_time (jobs : List (Nat × Nat)) :
    (plqRun jobs).Perm (stampActs jobs) ∧
    (∀ i j : Nat, ∀ hi : i < (plqRun jobs).length,
      ∀ hj : j < (plqRun jobs).length, i < j →
      ((plqRun jobs).get ⟨i, hi⟩).delivery_time ≤
        ((plqRun jobs).get ⟨j, hj⟩).delivery_time) ∧
    (∀ i j : Nat, ∀ hi : i < (plqRun jobs).length,
      ∀ hj : j < (plqRun jobs).length,
      ((plqRun jobs).get ⟨i, hi⟩).delivery_time =
        ((plqRun jobs).get ⟨j, hj⟩).delivery_time →
      (((plqRun jobs).get ⟨i, hi⟩).seq < ((plqRun jobs).get ⟨j, hj⟩).seq ↔
        i < j)) := by
  have hget := List.pairwise_iff_get.mp (plqRun_pairwise jobs)
  refine ⟨plqRun_perm jobs, ?_, ?_⟩
  · intro i j hi hj hij
    have := hget ⟨i, hi⟩ ⟨j, hj⟩ (Fin.mk_lt_mk.mpr hij)
    unfold timeSeqLt at this
    omega
  · intro i j hi hj hdt
    constructor
    · intro hseq
      rcases Nat.lt_trichotomy i j with h | h | h
      · exact h
      · exfalso
        subst h
        omega
      · exfalso
        have := hget ⟨j, hj⟩ ⟨i, hi⟩ (Fin.mk_lt_mk.mpr h)
        unfold timeSeqLt at this
        omega
    · intro hij
      have := hget ⟨i, hi⟩ ⟨j, hj⟩ (Fin.mk_lt_mk.mpr hij)
      unfold timeSeqLt at this
      omega

/-- Witness for C6: delivery times 7, 5, 7 (priorities 9, 1, 3) drain as
5 first, then the two 7s in insertion order; the theorem applied at the
two equal-delivery-time positions. -/
theorem pollingLinkQueue_pop_by_time_witness :
    plqRun [(7, 9), (5, 1), (7, 3)] =
      [⟨5, 1, 1⟩, ⟨7, 9, 0⟩, ⟨7, 3, 2⟩] ∧ (1 : Nat) < 2 :=
  ⟨by decide,
   ((pollingLinkQueue_pop_by_time [(7, 9), (5, 1), (7, 3)]).2.2 1 2
     (by decide) (by decide) (by decide)).mp (by decide)⟩

/-- Claim C2: `Sync::execute` behaves as the spec's five steps in order —
post a non-blocking send of each peer rank's `SyncQueue` contents with a
matching non-blocking receive, wait for all requests, clear every local
send-side `SyncQueue`, dispatch every received activity onto its link, and
finally re-insert self at `current_sim_time + period`: the transcribed
`Sync.execute` equals `executeSpecOrder`, the pipeline written in exactly
that step order, on every state, network and cycle. -/
theorem sync_execute_follows_spec_order (s : Sync) (net : Int → List Event)
    (cur : Nat) : Sync.execute s net cur = executeSpecOrder s net cur := by
  unfold Sync.execute executeSpecOrder
  rw [execLoop_eq_spec]

/-- Counterexample to claim C3: in `Sync::execute` at barrier cycle 10, a
received event with delivery time 5 — in the past — does not abort: no
assertion exists, `execute` succeeds, and the event is delivered on link
handle 42 with the wrapped unsigned delay `2^64 - 5`. -/
theorem sync_past_event_delivered_not_aborted :
    evPast.delivery_time < 10 ∧
    Sync.execute sOne netPast 10 =
      .ok (sOne, [Post.send 1 [], Post.recv 1],
        [⟨42, U64 - 5, evPast⟩], 17) := by
  constructor
  · decide
  · rfl

/-- Claim C3 (amended): for every event a successful `Sync::execute`
delivers, the delay passed to `Link::Send` is the unsigned 64-bit
difference `(delivery_time - current_cycle) mod 2^64`; when the delivery
time is at or after the current cycle this equals the true non-negative
difference `delivery_time - current_cycle`.  No assertion is performed: an
event whose delivery time lies in the past is delivered with the
wrapped-around delay rather than aborting. -/
theorem sync_recv_delay_wrapped (s : Sync) (net : Int → List Event)
    (cur : Nat) (res : Sync × List Post × List SendCall × Nat)
    (h : Sync.execute s net cur = .ok res) :
    ∀ c ∈ res.2.2.1, c.delay = wsub c.ev.delivery_time cur ∧
      (cur ≤ c.ev.delivery_time → c.ev.delivery_time < U64 →
        c.delay = c.ev.delivery_time - cur) := by
  intro c hc
  unfold Sync.execute at h
  cases hel : execLoop s.link_map cur (waitAll net s.comm_map) with
  | error e =>
    rw [hel] at h
    simp at h
  | ok pr =>
    obtain ⟨m2, calls⟩ := pr
    rw [hel] at h
    simp only [Except.ok.injEq] at h
    rw [← h] at hc
    have hd := execLoop_delay s.link_map cur (waitAll net s.comm_map) m2 calls
      hel c hc
    exact ⟨hd, fun hle hlt => by rw [hd]; exact wsub_of_le _ _ hle hlt⟩

/-- Witness for the amended C3: at cycle 10, the delivered future event
`evFut` (delivery time 13) gets delay `wsub 13 10`, which equals
`13 - 10`. -/
theorem sync_recv_delay_wrapped_witness :
    (⟨42, 3, evFut⟩ : SendCall).delay = wsub evFut.delivery_time 10 ∧
    (⟨42, 3, evFut⟩ : SendCall).delay = evFut.delivery_time - 10 := by
  have h := sync_recv_delay_wrapped sOne netFut 10 resFut rfl
    ⟨42, 3, evFut⟩ (by decide)
  exact ⟨h.1, h.2 (by decide) (by decide)⟩

/-- Claim C4: when `Sync::execute` succeeds, every received event whose
link id is in the link map was delivered via that link's `Send`; and if
any rank's received buffer holds an event whose link id is absent from the
link map, `execute` aborts with the "Link not found in map!" diagnostic
(and, the result being an error, no result state or delivery list is
produced at all). -/
theorem sync_execute_link_lookup (s : Sync) (net : Int → List Event)
    (cur : Nat) :
    (∀ (s2 : Sync) (posts : List Post) (calls : List SendCall) (next : Nat),
      Sync.execute s net cur = .ok (s2, posts, calls, next) →
      ∀ p ∈ s.comm_map, ∀ ev ∈ net p.1, ∀ lk : Nat,
        alookup ev.link_id s.link_map = some lk →
        (⟨lk, wsub ev.delivery_time cur, ev⟩ : SendCall) ∈ calls) ∧
    ((∃ p ∈ s.comm_map, ∃ ev ∈ net p.1,
        alookup ev.link_id s.link_map = none) →
      Sync.execute s net cur = .error "Link not found in map!") := by
  constructor
  · intro s2 posts calls next h p hp ev hev lk hlk
    unfold Sync.execute at h
    cases hel : execLoop s.link_map cur (waitAll net s.comm_map) with
    | error e =>
      rw [hel] at h
      simp at h
    | ok pr =>
      obtain ⟨m2, cs⟩ := pr
      rw [hel] at h
      simp only [Except.ok.injEq, Prod.mk.injEq] at h
      obtain ⟨h1, h2, h3, h4⟩ := h
      subst h3
      refine execLoop_ok_mem s.link_map cur (waitAll net s.comm_map) m2 cs hel
        (p.1, { p.2 with recvbuf := net p.1 }) ?_ ev hev lk hlk
      exact List.mem_map.mpr ⟨p, hp, rfl⟩
  · intro hmiss
    obtain ⟨p, hp, ev, hev, hnone⟩ := hmiss
    have herr := execLoop_err s.link_map cur (waitAll net s.comm_map)
      ⟨(p.1, { p.2 with recvbuf := net p.1 }),
        List.mem_map.mpr ⟨p, hp, rfl⟩, ev, hev, hnone⟩
    unfold Sync.execute
    rw [herr]

theorem dispatchInit_none (lm : List (Int × Nat)) (ev : Event)
    (h : alookup ev.link_id lm = none) :
    dispatchInit lm ev = .error "Link not found in map!" := by
  unfold dispatchInit
  rw [h]

theorem dispatchInit_ok (lm : List (Int × Nat)) (ev : Event) (lk : Nat)
    (h : alookup ev.link_id lm = some lk) :
    dispatchInit lm ev = .ok (lk, { ev with link_id := -1 }) := by
  unfold dispatchInit
  rw [h]

theorem dispatchInit_error_msg (lm : List (Int × Nat)) (ev : Event)
    (e : String) (h : dispatchInit lm ev = .error e) :
    e = "Link not found in map!" := by
  unfold dispatchInit at h
  cases halk : alookup ev.link_id lm with
  | none =>
    rw [halk] at h
    injection h with h2
    exact h2.symm
  | some lk =>
    rw [halk] at h
    simp at h

theorem dispatchInit_ok_reset (lm : List (Int × Nat)) (ev : Event)
    (c : Nat × Event) (h : dispatchInit lm ev = .ok c) :
    c.2.link_id = -1 := by
  unfold dispatchInit at h
  cases halk : alookup ev.link_id lm with
  | none =>
    rw [halk] at h
    simp at h
  | some lk =>
    rw [halk] at h
    injection h with h2
    rw [← h2]

theorem dispatchInitList_error_msg (lm : List (Int × Nat)) :
    ∀ (l : List Event) (e : String), dispatchInitList lm l = .error e →
      e = "Link not found in map!" := by
  intro l
  induction l with
  | nil =>
    intro e h
    simp [dispatchInitList] at h
  | cons ev0 rest ih =>
    intro e h
    simp only [dispatchInitList] at h
    cases hde : dispatchInit lm ev0 with
    | error e2 =>
      simp only [hde] at h
      injection h with h2
      exact h2 ▸ dispatchInit_error_msg lm ev0 e2 hde
    | ok c =>
      simp only [hde] at h
      cases hdl : dispatchInitList lm rest with
      | error e2 =>
        simp only [hdl] at h
        injection h with h2
        exact h2 ▸ ih e2 hdl
      | ok cs =>
        simp only [hdl] at h
        simp at h

theorem dispatchInitList_err (lm : List (Int × Nat)) :
    ∀ l : List Event, (∃ ev ∈ l, alookup ev.link_id lm = none) →
      dispatchInitList lm l = .error "Link not found in map!" := by
  intro l
  induction l with
  | nil =>
    intro h
    obtain ⟨ev, hmem, _⟩ := h
    simp at hmem
  | cons ev0 rest ih =>
    intro h
    obtain ⟨ev, hmem, hnone⟩ := h
    rcases List.mem_cons.mp hmem with rfl | hmem2
    · simp [dispatchInitList, dispatchInit_none lm ev hnone]
    · cases hde : dispatchInit lm ev0 with
      | error e =>
        simp [dispatchInitList, hde, dispatchInit_error_msg lm ev0 e hde]
      | ok c =>
        simp [dispatchInitList, hde, ih ⟨ev, hmem2, hnone⟩]

theorem dispatchInitList_ok_mem (lm : List (Int × Nat)) :
    ∀ (l : List Event) (out : List (Nat × Event)),
      dispatchInitList lm l = .ok out →
      ∀ ev ∈ l, ∀ lk : Nat, alookup ev.link_id lm = some lk →
        (lk, { ev with link_id := -1 }) ∈ out := by
  intro l
  induction l with
  | nil =>
    intro out _ ev hmem
    simp at hmem
  | cons ev0 rest ih =>
    intro out h ev hmem lk hlk
    simp only [dispatchInitList] at h
    cases hde : dispatchInit lm ev0 with
    | error e =>
      simp only [hde] at h
      simp at h
    | ok c =>
      simp only [hde] at h
      cases hdl : dispatchInitList lm rest with
      | error e =>
        simp only [hdl] at h
        simp at h
      | ok cs =>
        simp only [hdl] at h
        injection h with h2
        subst h2
        rcases List.mem_cons.mp hmem with rfl | hmem2
        · have hc : Except.ok ((lk, { ev with link_id := -1 }) : Nat × Event) =
              Except.ok c := (dispatchInit_ok lm ev lk hlk).symm.trans hde
          injection hc with hc2
          rw [hc2]
          exact List.mem_cons_self c cs
        · exact List.mem_cons_of_mem c (ih cs hdl ev hmem2 lk hlk)

theorem dispatchInitList_reset (lm : List (Int × Nat)) :
    ∀ (l : List Event) (out : List (Nat × Event)),
      dispatchInitList lm l = .ok out →
      ∀ q ∈ out, q.2.link_id = -1 := by
  intro l
  induction l with
  | nil =>
    intro out h q hq
    simp only [dispatchInitList] at h
    injection h with h2
    subst h2
    simp at hq
  | cons ev0 rest ih =>
    intro out h q hq
    simp only [dispatchInitList] at h
    cases hde : dispatchInit lm ev0 with
    | error e =>
      simp only [hde] at h
      simp at h
    | ok c =>
      simp only [hde] at h
      cases hdl : dispatchInitList lm rest with
      | error e =>
        simp only [hdl] at h
        simp at h
      | ok cs =>
        simp only [hdl] at h
        injection h with h2
        subst h2
        rcases List.mem_cons.mp hq with rfl | hq2
        · exact dispatchInit_ok_reset lm ev0 q hde
        · exact ih cs hdl q hq2

theorem exchangeLoop_err (lm : List (Int × Nat)) :
    ∀ m : List (Int × RankData),
      (∃ p ∈ m, ∃ ev ∈ p.2.recvbuf, alookup ev.link_id lm = none) →
      exchangeLoop lm m = .error "Link not found in map!" := by
  intro m
  induction m with
  | nil =>
    intro h
    obtain ⟨p, hp, _⟩ := h
    simp at hp
  | cons rd rest ih =>
    intro h
    obtain ⟨p, hp, ev, hev, hnone⟩ := h
    obtain ⟨r, d⟩ := rd
    rcases List.mem_cons.mp hp with rfl | hp2
    · simp [exchangeLoop, dispatchInitList_err lm d.recvbuf ⟨ev, hev, hnone⟩]
    · cases hdl : dispatchInitList lm d.recvbuf with
      | error e =>
        simp [exchangeLoop, hdl, dispatchInitList_error_msg lm d.recvbuf e hdl]
      | ok out =>
        simp [exchangeLoop, hdl, ih ⟨p, hp2, ev, hev, hnone⟩]

theorem exchangeLoop_ok_mem (lm : List (Int × Nat)) :
    ∀ (m m2 : List (Int × RankData)) (out : List (Nat × Event)),
      exchangeLoop lm m = .ok (m2, out) →
      ∀ p ∈ m, ∀ ev ∈ p.2.recvbuf, ∀ lk : Nat,
        alookup ev.link_id lm = some lk →
        (lk, { ev with link_id := -1 }) ∈ out := by
  intro m
  induction m with
  | nil =>
    intro m2 out _ p hp
    simp at hp
  | cons rd rest ih =>
    intro m2 out h p hp ev hev lk hlk
    obtain ⟨r, d⟩ := rd
    simp only [exchangeLoop] at h
    cases hdl : dispatchInitList lm d.recvbuf with
    | error e =>
      simp only [hdl] at h
      simp at h
    | ok out1 =>
      simp only [hdl] at h
      cases hel : exchangeLoop lm rest with
      | error e =>
        simp only [hel] at h
        simp at h
      | ok pr =>
        obtain ⟨m3, more⟩ := pr
        simp only [hel] at h
        injection h with h2
        injection h2 with h3 h4
        subst h4
        rcases List.mem_cons.mp hp with rfl | hp2
        · exact List.mem_append_left more
            (dispatchInitList_ok_mem lm _ out1 hdl ev hev lk hlk)
        · exact List.mem_append_right out1 (ih m3 more hel p hp2 ev hev lk hlk)

theorem exchangeLoop_reset (lm : List (Int × Nat)) :
    ∀ (m m2 : List (Int × RankData)) (out : List (Nat × Event)),
      exchangeLoop lm m = .ok (m2, out) →
      ∀ q ∈ out, q.2.link_id = -1 := by
  intro m
  induction m with
  | nil =>
    intro m2 out h q hq
    simp only [exchangeLoop] at h
    injection h with h2
    injection h2 with h3 h4
    subst h4
    simp at hq
  | cons rd rest ih =>
    intro m2 out h q hq
    obtain ⟨r, d⟩ := rd
    simp only [exchangeLoop] at h
    cases hdl : dispatchInitList lm d.recvbuf with
    | error e =>
      simp only [hdl] at h
      simp at h
    | ok out1 =>
      simp only [hdl] at h
      cases hel : exchangeLoop lm rest with
      | error e =>
        simp only [hel] at h
        simp at h
      | ok pr =>
        obtain ⟨m3, more⟩ := pr
        simp only [hel] at h
        injection h with h2
        injection h2 with h3 h4
        subst h4
        rcases List.mem_append.mp hq with hq1 | hq2
        · exact dispatchInitList_reset lm d.recvbuf out1 hdl q hq1
        · exact ih m3 more hel q hq2

/-- Witness for C4: an event for registered link 3 is delivered on handle
42, and an event naming the unregistered link 9 makes `execute` abort with
the diagnostic. -/
theorem sync_execute_link_lookup_witness :
    (⟨42, 3, evFut⟩ : SendCall) ∈ [(⟨42, 3, evFut⟩ : SendCall)] ∧
    Sync.execute sOne netNoLink 10 = .error "Link not found in map!" := by
  constructor
  · exact (sync_execute_link_lookup sOne netFut 10).1 sOne
      [Post.send 1 [], Post.recv 1] [⟨42, 3, evFut⟩] 17 rfl
      (1, ⟨0, [], []⟩) (by decide) evFut (by decide) 42 (by decide)
  · exact (sync_execute_link_lookup sOne netNoLink 10).2
      ⟨(1, ⟨0, [], []⟩), by decide, evNoLink, by decide, by decide⟩

/-- Claim C7: when `Sync::exchangeLinkInitData` succeeds, every item it
hands to a link's `sendInitData` has its link id reset to -1 (so the
receiving link re-stamps it), and every received item whose original link
id maps to a link is re-dispatched to that link with the reset id; a
received item whose link id is absent from the link map aborts fatally
with the "Link not found in map!" diagnostic. -/
theorem sync_exchange_init_reset (s : Sync) (net : Int → List Event) :
    (∀ (s2 : Sync) (posts : List Post) (out : List (Nat × Event)),
      Sync.exchangeLinkInitData s net = .ok (s2, posts, out) →
      (∀ q ∈ out, q.2.link_id = -1) ∧
      ∀ p ∈ s.comm_map, ∀ ev ∈ net p.1, ∀ lk : Nat,
        alookup ev.link_id s.link_map = some lk →
        (lk, { ev with link_id := -1 }) ∈ out) ∧
    ((∃ p ∈ s.comm_map, ∃ ev ∈ net p.1,
        alookup ev.link_id s.link_map = none) →
      Sync.exchangeLinkInitData s net = .error "Link not found in map!") := by
  constructor
  · intro s2 posts out h
    unfold Sync.exchangeLinkInitData at h
    cases hel : exchangeLoop s.link_map (waitAll net s.comm_map) with
    | error e =>
      rw [hel] at h
      simp at h
    | ok pr =>
      obtain ⟨m2, out1⟩ := pr
      rw [hel] at h
      simp only [Except.ok.injEq, Prod.mk.injEq] at h
      obtain ⟨h1, h2, h3⟩ := h
      subst h3
      constructor
      · exact exchangeLoop_reset s.link_map (waitAll net s.comm_map) m2 out1 hel
      · intro p hp ev hev lk hlk
        refine exchangeLoop_ok_mem s.link_map (waitAll net s.comm_map) m2 out1
          hel (p.1, { p.2 with recvbuf := net p.1 }) ?_ ev hev lk hlk
        exact List.mem_map.mpr ⟨p, hp, rfl⟩
  · intro hmiss
    obtain ⟨p, hp, ev, hev, hnone⟩ := hmiss
    have herr := exchangeLoop_err s.link_map (waitAll net s.comm_map)
      ⟨(p.1, { p.2 with recvbuf := net p.1 }),
        List.mem_map.mpr ⟨p, hp, rfl⟩, ev, hev, hnone⟩
    unfold Sync.exchangeLinkInitData
    rw [herr]

/-- Witness for C7: the init item for link 3 (payload 77) is re-dispatched
on link handle 42 with its link id reset to -1. -/
theorem sync_exchange_init_reset_witness :
    ((42 : Nat), (⟨-1, 0, 77⟩ : Event)) ∈
      [((42 : Nat), (⟨-1, 0, 77⟩ : Event))] ∧
    (⟨-1, 0, 77⟩ : Event).link_id = -1 := by
  have h := (sync_exchange_init_reset sOne netInit).1 sOne
    [Post.send 1 [], Post.recv 1] [(42, ⟨-1, 0, 77⟩)] rfl
  exact ⟨h.2 (1, ⟨0, [], []⟩) (by decide) evInit (by decide) 42 (by decide),
    h.1 (42, ⟨-1, 0, 77⟩) (by decide)⟩

/-- Claim C8: `Sync::serialize` writes the `Action` base state, the
period, the per-rank `SyncQueue` map and the link map, and never the
transport handle: its output is unchanged under any value of `comm`. -/
theorem sync_serialize_omits_comm (s : Sync) (c1 c2 : Nat) :
    Sync.serialize { s with comm := c1 } =
      Sync.serialize { s with comm := c2 } ∧
    Sync.serialize s =
      [SerField.base s.priority, SerField.periodField s.period,
        SerField.commMapField s.comm_map, SerField.linkMapField s.link_map] :=
  ⟨rfl, rfl⟩

/-- Claim C9: `Sync::registerLink` allocates exactly one `SyncQueue` per
peer rank — a first call naming a rank returns a freshly allocated queue
(distinct from every queue id already in the map, and recorded with an
empty fresh receive buffer), a repeat call returns the queue already
recorded for that rank and allocates nothing, and every call binds
`link_id` to `link` in the link map. -/
theorem sync_registerLink_one_queue_per_rank (s : Sync) (rank link_id : Int)
    (link : Nat) :
    (alookup rank s.comm_map = none →
      (registerLink s rank link_id link).1 = s.next_qid ∧
      alookup rank (registerLink s rank link_id link).2.comm_map =
        some ⟨s.next_qid, [], []⟩ ∧
      (registerLink s rank link_id link).2.next_qid = s.next_qid + 1 ∧
      ∀ p ∈ s.comm_map, p.2.qid < s.next_qid →
        p.2.qid ≠ (registerLink s rank link_id link).1) ∧
    (∀ d : RankData, alookup rank s.comm_map = some d →
      (registerLink s rank link_id link).1 = d.qid ∧
      (registerLink s rank link_id link).2.comm_map = s.comm_map ∧
      (registerLink s rank link_id link).2.next_qid = s.next_qid) ∧
    alookup link_id (registerLink s rank link_id link).2.link_map =
      some link := by
  refine ⟨?_, ?_, ?_⟩
  · intro h
    have hreg : registerLink s rank link_id link =
        (s.next_qid,
          { s with
            comm_map := aset rank ⟨s.next_qid, [], []⟩ s.comm_map
            next_qid := s.next_qid + 1
            link_map := aset link_id link s.link_map }) := by
      simp only [registerLink, h]
    rw [hreg]
    exact ⟨rfl, alookup_aset_self rank _ s.comm_map, rfl,
      fun p _ hlt => Nat.ne_of_lt hlt⟩
  · intro d h
    have hreg : registerLink s rank link_id link =
        (d.qid, { s with link_map := aset link_id link s.link_map }) := by
      simp only [registerLink, h]
    rw [hreg]
    exact ⟨rfl, rfl, rfl⟩
  · cases h : alookup rank s.comm_map with
    | none =>
      have hreg : registerLink s rank link_id link =
          (s.next_qid,
            { s with
              comm_map := aset rank ⟨s.next_qid, [], []⟩ s.comm_map
              next_qid := s.next_qid + 1
              link_map := aset link_id link s.link_map }) := by
        simp only [registerLink, h]
      rw [hreg]
      exact alookup_aset_self link_id link s.link_map
    | some d =>
      have hreg : registerLink s rank link_id link =
          (d.qid, { s with link_map := aset link_id link s.link_map }) := by
        simp only [registerLink, h]
      rw [hreg]
      exact alookup_aset_self link_id link s.link_map

/-- Witness for C9: on `sOne` (rank 1 registered with queue id 0,
`next_qid = 1`), registering new rank 2 returns the fresh queue id 1,
re-registering rank 1 returns the existing queue id 0, and the link
binding is recorded. -/
theorem sync_registerLink_one_queue_per_rank_witness :
    (registerLink sOne 2 4 43).1 = 1 ∧
    (registerLink sOne 1 5 44).1 = 0 ∧
    alookup 5 (registerLink sOne 1 5 44).2.link_map = some 44 := by
  refine ⟨((sync_registerLink_one_queue_per_rank sOne 2 4 43).1 (by decide)).1,
    ?_, (sync_registerLink_one_queue_per_rank sOne 1 5 44).2.2⟩
  exact ((sync_registerLink_one_queue_per_rank sOne 1 5 44).2.1
    ⟨0, [], []⟩ (by decide)).1

/-- Counterexample to claim C10 as stated: the constructor's
`SimTime_t` sum wraps — at current cycle `2^64 - 1` with period 1 the
first barrier is scheduled at time 0, which is not after construction
time. -/
theorem sync_ctor_wraps_to_zero :
    (mkSync 1 (U64 - 1)).2 = 0 ∧ ¬ U64 - 1 < (mkSync 1 (U64 - 1)).2 :=
  ⟨rfl, by decide⟩

/-- Claim C10 (amended): constructing a `Sync` with period `p` at current
cycle `cur` sets its priority to 25 and inserts it into the simulation's
activity queue at delivery time `(cur + p) mod 2^64`; whenever the period
is positive and the uint64 sum does not overflow, that is `cur + p`,
strictly after construction time — but at overflow the scheduled time
wraps around instead. -/
theorem sync_ctor_priority_and_first_fire (p cur : Nat) :
    (mkSync p cur).1.priority = 25 ∧
    (mkSync p cur).2 = (cur + p) % U64 ∧
    (0 < p → cur + p < U64 → cur < (mkSync p cur).2) := by
  refine ⟨rfl, rfl, ?_⟩
  intro hp hlt
  show cur < (cur + p) % U64
  rw [Nat.mod_eq_of_lt hlt]
  omega

/-- Witness for C10: with period 7 at cycle 10 (no overflow), the
constructed barrier has priority 25 and is scheduled at 17 > 10. -/
theorem sync_ctor_priority_and_first_fire_witness :
    (mkSync 7 10).1.priority = 25 ∧ (10 : Nat) < (mkSync 7 10).2 :=
  ⟨(sync_ctor_priority_and_first_fire 7 10).1,
    (sync_ctor_priority_and_first_fire 7 10).2.2 (by decide) (by decide)⟩

end SSTCore
